import Mathlib

/-!
Shallow embedding of the vehicle-light detection pipeline
(`light_detector.py`, `inference.py`, `train_model.py`).

Conventions of the embedding:
* pixel centers are integers (`ℤ`), intensities are exact rationals (`ℚ`);
  the Python code compares `sqrt(dx**2 + dy**2) < 50` and
  `distance < min_distance`; since `sqrt` is strictly monotone on
  nonnegative reals we compare the squared distances against `2500`
  and against the squared running minimum, which decides exactly the
  same comparisons;
* Python's insertion-ordered `dict` is an association list with unique
  keys: assignment to an existing key replaces the value in place,
  assignment to a fresh key appends at the end, deletion removes the
  entry (`dictSet`, `dictGet`, `dictHas`, and `List.filter`);
* `collections.deque(maxlen=n)` is a list together with `dequeAppend`,
  which drops from the left when the length would exceed `n`;
* `float('inf')` (used as the average of an empty run list) is `none`
  in `Option ℚ`; the comparison helpers `infLtQ`/`qLtInf` give the
  comparisons against infinity their IEEE meaning (`inf < b` is false,
  `b < inf` is true).
-/

namespace HazardLight

/-- One entry of a track's history, as built in
`LightDetector.track_lights` (light_detector.py lines 122-127):
center, intensity, frame number, and the derived on/off state
(`intensity > 180`). -/
structure Obs where
  cx : ℤ
  cy : ℤ
  intensity : ℚ
  frame : ℕ
  isOn : Bool
deriving Repr, DecidableEq

/-- The fields of a detected light that `track_lights` reads:
`light['center']` and `light['intensity']`
(light_detector.py lines 77-83). -/
structure Region where
  cx : ℤ
  cy : ℤ
  intensity : ℚ
deriving Repr, DecidableEq

/-- The observation appended for a matched or new region
(light_detector.py lines 122-127); the on/off state is
`light['intensity'] > 180`. -/
def mkObs (r : Region) (frame : ℕ) : Obs :=
  ⟨r.cx, r.cy, r.intensity, frame, decide (r.intensity > 180)⟩

/-- Python `dict` lookup `d[k]` / `k in d` on an insertion-ordered
association list. -/
def dictGet {β : Type} : List (String × β) → String → Option β
  | [], _ => none
  | e :: t, k => if e.1 = k then some e.2 else dictGet t k

/-- Python `k in d`. -/
def dictHas {β : Type} : List (String × β) → String → Bool
  | [], _ => false
  | e :: t, k => if e.1 = k then true else dictHas t k

/-- Python `d[k] = v`: replace in place when the key exists, append
at the end otherwise. -/
def dictSet {β : Type} : List (String × β) → String → β → List (String × β)
  | [], k, v => [(k, v)]
  | e :: t, k, v => if e.1 = k then (k, v) :: t else e :: dictSet t k v

/-- `collections.deque(maxlen := cap).append x`: append on the right,
discarding from the left while the length exceeds `cap`. -/
def dequeAppend (cap : ℕ) (h : List Obs) (x : Obs) : List Obs :=
  if h.length < cap then h ++ [x]
  else List.drop (h.length + 1 - cap) (h ++ [x])

/-- The tracker state `self.light_history`: an insertion-ordered map
from track id to that track's bounded history. -/
abbrev TrackMap := List (String × List Obs)

/-- The matching loop of `track_lights` (light_detector.py lines
103-114): scan the live tracks in insertion order, keeping the id of
the strictly closest previous light whose distance is below the
50-pixel gate; distances are compared through their squares. -/
def bestMatch (m : TrackMap) (cx cy : ℤ) : Option String :=
  (m.foldl
    (fun acc e =>
      match e.2.getLast? with
      | none => acc
      | some last =>
        let d := (cx - last.cx) ^ 2 + (cy - last.cy) ^ 2
        match acc with
        | none => if d < 2500 then some (e.1, d) else none
        | some best =>
          if d < 2500 ∧ d < best.2 then some (e.1, d) else some best)
    none).map Prod.fst

/-- Processing of one detected region inside `track_lights`
(light_detector.py lines 101-129): match it to the closest live
track inside the gate, otherwise create a fresh entry under the id
`"light_" ++ toString (number of tracks)`; then append the new
observation to that id's deque and record the id in
`current_light_states`. -/
def processRegion (cap : ℕ) (frame : ℕ)
    (st : TrackMap × List (String × Region)) (r : Region) :
    TrackMap × List (String × Region) :=
  let m := st.1
  let idm : String × TrackMap :=
    match bestMatch m r.cx r.cy with
    | some i => (i, m)
    | none =>
      let i := "light_" ++ toString m.length
      (i, dictSet m i [])
  let hist := (dictGet idm.2 idm.1).getD []
  let m2 := dictSet idm.2 idm.1 (dequeAppend cap hist (mkObs r frame))
  (m2, dictSet st.2 idm.1 r)

/-- `LightDetector.track_lights` (light_detector.py lines 87-141):
process the frame's regions in emission order, then delete every
track that was not touched this frame and whose last observation is
more than 10 frames old.  Returns the new tracker state and
`current_light_states`. -/
def track_lights (cap : ℕ) (m : TrackMap) (regions : List Region)
    (frame : ℕ) : TrackMap × List (String × Region) :=
  let stepped := regions.foldl (processRegion cap frame) (m, [])
  let kept := stepped.1.filter (fun e =>
    if dictHas stepped.2 e.1 then true
    else
      match e.2.getLast? with
      | none => true
      | some last => !(decide ((frame : ℤ) - (last.frame : ℤ) > 10)))
  (kept, stepped.2)

/-- A whole run of the tracker from the initial empty state
(`self.light_history = {}`): one `track_lights` call per listed
frame, each with its region list and frame number.  This covers every
behavior of `process_frame`, whose detection stage merely supplies
the region list. -/
def runTrack (cap : ℕ) (calls : List (List Region × ℕ)) : TrackMap :=
  calls.foldl (fun m c => (track_lights cap m c.1 c.2).1) []

/-- The transition count
`sum(1 for i in range(1, len(states)) if states[i] != states[i-1])`
used identically in light_detector.py line 164, inference.py line 43
and train_model.py line 71: the accumulator carries `states[i-1]`. -/
def pyTransitionsAux : Bool → List Bool → ℕ
  | _, [] => 0
  | prev, b :: t => (if b = prev then 0 else 1) + pyTransitionsAux b t

/-- Transition count of a whole on/off sequence; `0` on sequences of
length below two, as in the Python sum over `range(1, len)`. -/
def pyTransitions : List Bool → ℕ
  | [] => 0
  | b :: t => pyTransitionsAux b t

/-- The run-splitting loop of `classify_light_type`
(light_detector.py lines 172-192): walk the sequence keeping the
current state and its duration; on a flip, file the finished duration
under `on_periods` or `off_periods`; after the loop file the final
duration. -/
def runsLoop : List Bool → Bool → ℕ → List ℕ × List ℕ
  | [], cur, dur => if cur then ([dur], []) else ([], [dur])
  | b :: t, cur, dur =>
    if b = cur then runsLoop t cur (dur + 1)
    else
      let rest := runsLoop t b 1
      if cur then (dur :: rest.1, rest.2) else (rest.1, dur :: rest.2)

/-- `on_periods` and `off_periods` of an on/off sequence: the loop
starts from `states[0]` with duration 1.  (The Python code only
reaches this point with at least 10 states; the empty case is
unreachable there.) -/
def periodsOf : List Bool → List ℕ × List ℕ
  | [] => ([], [])
  | b :: t => runsLoop t b 1

/-- `np.mean(l) if l else float('inf')`
(light_detector.py lines 196-197): `none` models `float('inf')`. -/
def avgInf (l : List ℕ) : Option ℚ :=
  if l = [] then none else some ((l.map (fun n => (n : ℚ))).sum / l.length)

/-- `a < b` for a possibly infinite left side: `inf < b` is false. -/
def infLtQ (a : Option ℚ) (b : ℚ) : Bool :=
  match a with
  | none => false
  | some q => decide (q < b)

/-- `b < a` for a possibly infinite right side: `b < inf` is true. -/
def qLtInf (b : ℚ) (a : Option ℚ) : Bool :=
  match a with
  | none => true
  | some q => decide (b < q)

/-- The classification rule of `classify_light_type` applied to a
track's history (light_detector.py lines 156-207): fewer than 10
observations give `unknown`; zero transitions give `running_light`;
more than 3 transitions with both average periods strictly between 5
and 30 give `hazard_light`; otherwise at least one transition with an
average period below 5 gives `hazard_light`; everything else gives
`running_light`. -/
def classifyHistory (history : List Obs) : String :=
  if history.length < 10 then "unknown"
  else
    let states := history.map (·.isOn)
    let transitions := pyTransitions states
    if transitions = 0 then "running_light"
    else
      let p := periodsOf states
      let avgOn := avgInf p.1
      let avgOff := avgInf p.2
      if decide (transitions > 3) && qLtInf 5 avgOn && infLtQ avgOn 30
          && qLtInf 5 avgOff && infLtQ avgOff 30 then "hazard_light"
      else if decide (transitions > 0) && (infLtQ avgOn 5 || infLtQ avgOff 5) then
        "hazard_light"
      else "running_light"

/-- `LightDetector.classify_light_type` (light_detector.py lines
143-207): a light id absent from `self.light_history` yields
`unknown`, otherwise the history rule applies. -/
def classify_light_type (m : TrackMap) (lightId : String) : String :=
  match dictGet m lightId with
  | none => "unknown"
  | some history => classifyHistory history

/-! ### The rule of spec section 4.3, stated from the spec's words

These definitions follow the specification text, not the source, and
exist to be compared with the transcription above (claim about the
classifier implementing the documented rule). -/

/-- Run-length encoding: "segment the sequence into maximal
constant-value runs" (spec 4.3 step 4), built from the back. -/
def runs : List Bool → List (Bool × ℕ)
  | [] => []
  | b :: t =>
    match runs t with
    | [] => [(b, 1)]
    | (c, n) :: tl => if b = c then (b, n + 1) :: tl else (b, 1) :: (c, n) :: tl

/-- Separate a list of runs into on-run lengths and off-run lengths. -/
def splitRuns (r : List (Bool × ℕ)) : List ℕ × List ℕ :=
  ((r.filter (fun p => p.1)).map Prod.snd,
   (r.filter (fun p => !p.1)).map Prod.snd)

/-- Prepend a pending run of value `c` and length `d` to a run list,
merging with the head run when it has the same value.  Proof-side
bridge between the imperative run loop and the run-length encoding. -/
def mergeRun (c : Bool) (d : ℕ) : List (Bool × ℕ) → List (Bool × ℕ)
  | [] => [(c, d)]
  | (b, n) :: tl => if c = b then (c, n + d) :: tl else (c, d) :: (b, n) :: tl

/-- Spec 4.3 step 2: "`transitions` = count of adjacent positions
where the state flips". -/
def transitionsSpec (l : List Bool) : ℕ :=
  (l.zip l.tail).countP (fun p => ¬ (p.1 = p.2))

/-- The classification rule exactly as the specification words it
(spec 4.3, rule-based strategy): below 10 samples Unknown; zero
transitions RunningLight; more than 3 transitions with both average
run lengths strictly inside (5, 30) HazardLight; else a positive
transition count with an average run length below 5 HazardLight;
else RunningLight.  Averages of empty run lists are +infinity. -/
def specRuleClassify (history : List Obs) : String :=
  if history.length < 10 then "unknown"
  else
    let states := history.map (·.isOn)
    let transitions := transitionsSpec states
    if transitions = 0 then "running_light"
    else
      let p := splitRuns (runs states)
      let avgOn := avgInf p.1
      let avgOff := avgInf p.2
      if decide (transitions > 3) && qLtInf 5 avgOn && infLtQ avgOn 30
          && qLtInf 5 avgOff && infLtQ avgOff 30 then "hazard_light"
      else if decide (transitions > 0) && (infLtQ avgOn 5 || infLtQ avgOff 5) then
        "hazard_light"
      else "running_light"

/-! ### The two feature-vector paths (inference.py and train_model.py)

Both paths compute a 10-dimensional float vector from a track's
history.  Three of its entries are square roots
(`np.std(intensities)`, `np.std(periods)` and the movement scalar
`sqrt(var x + var y)`); the embedding stores the radicand of each
(the population variance, resp. the variance sum), which determines
the float entry: both sources apply the same square root to it. -/

/-- `np.mean` of a list of rationals (`0` on the empty list, which
neither path reaches: histories there have at least 10 entries). -/
def npMean (l : List ℚ) : ℚ := l.sum / l.length

/-- Population variance, the radicand of `np.std`. -/
def npVar (l : List ℚ) : ℚ :=
  (l.map (fun x => (x - npMean l) ^ 2)).sum / l.length

/-- The 10 features, in vector order; `varIntensity`, `varPeriod` and
`movementSq` hold the radicands of entries 2, 6 and 9. -/
structure FeatureVec where
  meanIntensity : ℚ
  varIntensity : ℚ
  transitions : ℕ
  onRatio : ℚ
  avgPeriod : ℚ
  varPeriod : ℚ
  centerX : ℚ
  centerY : ℚ
  movementSq : ℚ
  histLen : ℕ
deriving Repr, DecidableEq

/-- The merged-run loop of `classify_with_model` (inference.py lines
48-58): one list of all run durations, in order. -/
def modelPeriodsLoopInfer : List Bool → Bool → ℕ → List ℕ
  | [], _, dur => [dur]
  | b :: t, cur, dur =>
    if b = cur then modelPeriodsLoopInfer t cur (dur + 1)
    else dur :: modelPeriodsLoopInfer t b 1

/-- `periods` as computed by `classify_with_model` when
`transitions > 0`; starts from `states[0]` with duration 1. -/
def modelPeriodsInfer : List Bool → List ℕ
  | [] => []
  | b :: t => modelPeriodsLoopInfer t b 1

/-- The merged-run loop of `extract_features` (train_model.py lines
77-87), transcribed from that file. -/
def modelPeriodsLoopTrain : List Bool → Bool → ℕ → List ℕ
  | [], _, dur => [dur]
  | b :: t, cur, dur =>
    if b = cur then modelPeriodsLoopTrain t cur (dur + 1)
    else dur :: modelPeriodsLoopTrain t b 1

/-- `periods` as computed by `extract_features` when
`transitions > 0` (train_model.py lines 76-87). -/
def modelPeriodsTrain : List Bool → List ℕ
  | [] => []
  | b :: t => modelPeriodsLoopTrain t b 1

/-- The feature vector of the online path
`EnhancedLightDetector.classify_with_model` (inference.py lines
37-75): intensity mean and std, transitions, on-ratio, merged-period
mean and std (whole length and 0 when `transitions == 0`), center
means, movement dispersion, history length. -/
def featuresInfer (history : List Obs) : FeatureVec :=
  let intensities := history.map (·.intensity)
  let states := history.map (·.isOn)
  let transitions := pyTransitions states
  let pp : ℚ × ℚ :=
    if 0 < transitions then
      let periods := modelPeriodsInfer states
      (if periods = [] then 0 else npMean (periods.map (fun n => (n : ℚ))),
       if 1 < periods.length then npVar (periods.map (fun n => (n : ℚ))) else 0)
    else ((states.length : ℚ), 0)
  { meanIntensity := npMean intensities
    varIntensity := npVar intensities
    transitions := transitions
    onRatio := (states.countP (fun b => b) : ℚ) / states.length
    avgPeriod := pp.1
    varPeriod := pp.2
    centerX := npMean (history.map (fun o => (o.cx : ℚ)))
    centerY := npMean (history.map (fun o => (o.cy : ℚ)))
    movementSq := npVar (history.map (fun o => (o.cx : ℚ)))
      + npVar (history.map (fun o => (o.cy : ℚ)))
    histLen := history.length }

/-- The feature vector of the offline path
`LightModelTrainer.extract_features` (train_model.py lines 64-114),
transcribed from that file. -/
def featuresTrain (history : List Obs) : FeatureVec :=
  let intensities := history.map (·.intensity)
  let states := history.map (·.isOn)
  let transitions := pyTransitions states
  let pp : ℚ × ℚ :=
    if 0 < transitions then
      let periods := modelPeriodsTrain states
      (if periods = [] then 0 else npMean (periods.map (fun n => (n : ℚ))),
       if 1 < periods.length then npVar (periods.map (fun n => (n : ℚ))) else 0)
    else ((states.length : ℚ), 0)
  { meanIntensity := npMean intensities
    varIntensity := npVar intensities
    transitions := transitions
    onRatio := (states.countP (fun b => b) : ℚ) / states.length
    avgPeriod := pp.1
    varPeriod := pp.2
    centerX := npMean (history.map (fun o => (o.cx : ℚ)))
    centerY := npMean (history.map (fun o => (o.cy : ℚ)))
    movementSq := npVar (history.map (fun o => (o.cx : ℚ)))
      + npVar (history.map (fun o => (o.cy : ℚ)))
    histLen := history.length }

/-! ### The detection entry point and its failure mode

`detect_lights` (light_detector.py lines 27-85) starts with
`hsv = cv2.cvtColor(frame, cv2.COLOR_BGR2HSV)` with no surrounding
`try`/`except`, then derives the region list from `hsv` and `frame`
through further OpenCV calls.  OpenCV signals a malformed frame
(wrong channel count or format) by raising `cv2.error` from
`cvtColor`.  The conversion and the downstream processing are
external library code, so the embedding takes them as parameters; the
repository's own contribution — the decisive one for the
error-handling claim — is the uncaught sequencing. -/

/-- A raised `cv2.error`, carried by its message. -/
structure CvError where
  msg : String
deriving Repr, DecidableEq

/-- Opaque payload of a successfully converted HSV image. -/
structure HSVImage where
  tag : ℕ
deriving Repr, DecidableEq

/-- Opaque input frame; `channels` is the only attribute the failure
mode depends on. -/
structure PyFrame where
  channels : ℕ
deriving Repr, DecidableEq

/-- `LightDetector.detect_lights`: run the color conversion, then the
pure post-processing of the converted image; an exception from the
conversion propagates because the body has no handler. -/
def detect_lights (cvtColor : PyFrame → Except CvError HSVImage)
    (postProcess : HSVImage → PyFrame → List Region)
    (frame : PyFrame) : Except CvError (List Region) :=
  match cvtColor frame with
  | Except.error e => Except.error e
  | Except.ok hsv => Except.ok (postProcess hsv frame)

/-- A conversion that accepts exactly 3-channel frames, the behavior
of `cv2.cvtColor(·, COLOR_BGR2HSV)`. -/
def bgr2hsv (f : PyFrame) : Except CvError HSVImage :=
  if f.channels = 3 then Except.ok ⟨0⟩
  else Except.error ⟨"Invalid number of channels in input image"⟩

/-- A post-processing stage that finds nothing, used to instantiate
the external stages at concrete inputs. -/
def nilPost : HSVImage → PyFrame → List Region := fun _ _ => []

/-- A single-channel frame, rejected by `bgr2hsv`. -/
def badFrame : PyFrame := ⟨1⟩

/-! ### Concrete inputs used in counterexamples and witnesses -/

/-- A bright region at the origin. -/
def regA : Region := ⟨0, 0, 200⟩

/-- A bright region far from `regA` (outside any 50-pixel gate). -/
def regB : Region := ⟨1000, 1000, 200⟩

/-- A bright region far from both `regA` and `regB`. -/
def regC : Region := ⟨2000, 2000, 200⟩

/-- A bright region 10 pixels from `regA`, inside its gate. -/
def regD : Region := ⟨10, 0, 200⟩

/-- Frame 1 shows `regA` and `regB`; frames 2 through 12 show only
`regB`.  At frame 12 the track of `regA` is 11 frames stale and is
evicted, shrinking the id counter. -/
def callsThrough12 : List (List Region × ℕ) :=
  ([regA, regB], 1) :: (List.range 11).map (fun k => ([regB], k + 2))

/-- The same run followed by frame 13, which shows only the fresh
far-away region `regC`. -/
def callsThrough13 : List (List Region × ℕ) :=
  callsThrough12 ++ [([regC], 13)]

/-- 60 observations of one light alternating 10 frames on
(intensity 200, above the 180 threshold) and 10 frames off
(intensity 100), for 3 full cycles, at a fixed center. -/
def cycleObs : List Obs :=
  (List.range 3).flatMap (fun c =>
    (List.range 10).map (fun k => mkObs ⟨0, 0, 200⟩ (20 * c + k + 1)) ++
    (List.range 10).map (fun k => mkObs ⟨0, 0, 100⟩ (20 * c + k + 11)))

/-- The history after feeding the 60 alternating observations through
the capacity-30 deque: only the final 30 remain. -/
def cycleHist : List Obs := cycleObs.foldl (dequeAppend 30) []

/-- A tracker state holding one track with the alternating history. -/
def cycleState : TrackMap := [("light_0", cycleHist)]

/-- A 10-observation steady history used to instantiate the feature
paths. -/
def steadyHist : List Obs := (List.range 10).map (fun k => mkObs regA (k + 1))

/-! ### Dictionary and deque lemmas -/

/-- Looking up the key just assigned gives the assigned value. -/
theorem dictGet_dictSet_self {β : Type} (m : List (String × β)) (k : String)
    (v : β) : dictGet (dictSet m k v) k = some v := by
  induction m with
  | nil => simp [dictSet, dictGet]
  | cons e t ih =>
    by_cases h : e.1 = k
    · simp [dictSet, dictGet, h]
    · simp [dictSet, dictGet, h, ih]

/-- Assignment leaves every other key's value unchanged. -/
theorem dictGet_dictSet_other {β : Type} (m : List (String × β))
    (k k' : String) (v : β) (h : k' ≠ k) :
    dictGet (dictSet m k v) k' = dictGet m k' := by
  have hne : ¬ (k = k') := fun hk => h hk.symm
  induction m with
  | nil => simp [dictSet, dictGet, hne]
  | cons e t ih =>
    by_cases he : e.1 = k
    · subst he
      simp [dictSet, dictGet, hne]
    · simp [dictSet, dictGet, he, ih]

/-- Assignment leaves membership of every other key unchanged. -/
theorem dictHas_dictSet_other {β : Type} (m : List (String × β))
    (k k' : String) (v : β) (h : k' ≠ k) :
    dictHas (dictSet m k v) k' = dictHas m k' := by
  have hne : ¬ (k = k') := fun hk => h hk.symm
  induction m with
  | nil => simp [dictSet, dictHas, hne]
  | cons e t ih =>
    by_cases he : e.1 = k
    · subst he
      simp [dictSet, dictHas, hne]
    · simp [dictSet, dictHas, he, ih]

/-- Every entry of `dictSet m k v` is the assigned pair or an entry
of `m`. -/
theorem mem_dictSet_weak {β : Type} {m : List (String × β)} {k : String}
    {v : β} {e : String × β} (h : e ∈ dictSet m k v) :
    e = (k, v) ∨ e ∈ m := by
  induction m with
  | nil => simpa [dictSet] using h
  | cons a t ih =>
    by_cases ha : a.1 = k
    · simp only [dictSet, if_pos ha, List.mem_cons] at h
      rcases h with h | h
      · exact Or.inl h
      · exact Or.inr (List.mem_cons_of_mem a h)
    · simp only [dictSet, if_neg ha, List.mem_cons] at h
      rcases h with h | h
      · exact Or.inr (h ▸ List.mem_cons_self a t)
      · rcases ih h with h' | h'
        · exact Or.inl h'
        · exact Or.inr (List.mem_cons_of_mem a h')

/-- A key is in `dictSet m k v` exactly when it is in `m` or is `k`. -/
theorem mem_keys_dictSet {β : Type} (m : List (String × β)) (k x : String)
    (v : β) :
    x ∈ (dictSet m k v).map Prod.fst ↔ x ∈ m.map Prod.fst ∨ x = k := by
  induction m with
  | nil => simp [dictSet]
  | cons a t ih =>
    by_cases ha : a.1 = k
    · subst ha
      simp [dictSet]
      tauto
    · simp [dictSet, ha, ih]
      tauto

/-- Assignment preserves distinctness of the keys. -/
theorem keys_nodup_dictSet {β : Type} {m : List (String × β)} (k : String)
    (v : β) (h : (m.map Prod.fst).Nodup) :
    ((dictSet m k v).map Prod.fst).Nodup := by
  induction m with
  | nil => simp [dictSet]
  | cons a t ih =>
    simp only [List.map_cons, List.nodup_cons] at h
    by_cases ha : a.1 = k
    · subst ha
      simpa [dictSet, List.nodup_cons] using h
    · simp only [dictSet, if_neg ha, List.map_cons, List.nodup_cons]
      refine ⟨?_, ih h.2⟩
      rw [mem_keys_dictSet]
      push_neg
      exact ⟨h.1, ha⟩

/-- With distinct keys, an entry of `dictSet m k v` is the assigned
pair or an entry of `m` whose key differs from `k`. -/
theorem mem_dictSet_nodup {β : Type} {m : List (String × β)} {k : String}
    {v : β} {e : String × β} (hnd : (m.map Prod.fst).Nodup)
    (h : e ∈ dictSet m k v) : e = (k, v) ∨ (e ∈ m ∧ e.1 ≠ k) := by
  induction m with
  | nil => simpa [dictSet] using h
  | cons a t ih =>
    simp only [List.map_cons, List.nodup_cons] at hnd
    by_cases ha : a.1 = k
    · simp only [dictSet, if_pos ha, List.mem_cons] at h
      rcases h with h | h
      · exact Or.inl h
      · refine Or.inr ⟨List.mem_cons_of_mem a h, ?_⟩
        intro hek
        exact hnd.1 (ha ▸ hek ▸ List.mem_map_of_mem Prod.fst h)
    · simp only [dictSet, if_neg ha, List.mem_cons] at h
      rcases h with h | h
      · exact Or.inr ⟨h ▸ List.mem_cons_self a t, h ▸ ha⟩
      · rcases ih hnd.2 h with h' | h'
        · exact Or.inl h'
        · exact Or.inr ⟨List.mem_cons_of_mem a h'.1, h'.2⟩

/-- Appending to a deque never makes it longer than its capacity. -/
theorem dequeAppend_length_le (cap : ℕ) (h : List Obs) (x : Obs) :
    (dequeAppend cap h x).length ≤ cap := by
  unfold dequeAppend
  split
  · next hlt => simpa using hlt
  · next hge =>
    simp only [List.length_drop, List.length_append, List.length_singleton]
    omega

/-- With positive capacity, the appended deque is nonempty. -/
theorem dequeAppend_ne_nil (cap : ℕ) (hcap : 1 ≤ cap) (h : List Obs)
    (x : Obs) : dequeAppend cap h x ≠ [] := by
  have : 1 ≤ (dequeAppend cap h x).length := by
    unfold dequeAppend
    split
    · simp
    · next hge =>
      simp only [List.length_drop, List.length_append, List.length_singleton]
      omega
  intro hnil
  rw [hnil] at this
  simp at this

/-- With positive capacity, the last element of the appended deque is
the appended observation. -/
theorem dequeAppend_getLast (cap : ℕ) (hcap : 1 ≤ cap) (h : List Obs)
    (x : Obs) : (dequeAppend cap h x).getLast? = some x := by
  unfold dequeAppend
  split
  · exact List.getLast?_concat h
  · next hge =>
    rw [List.drop_append_of_le_length (by simp; omega)]
    exact List.getLast?_concat _

/-! ### Claim theorems -/

/-- Claim C10: `classify_light_type` on a light id absent from the
live track set returns `"unknown"` rather than failing, for every
tracker state and every such id. -/
theorem claim_C10_unknown_id (m : TrackMap) (lightId : String)
    (h : dictGet m lightId = none) :
    classify_light_type m lightId = "unknown" := by
  simp [classify_light_type, h]

/-- Witness for C10 at the empty tracker state. -/
theorem claim_C10_witness :
    dictGet ([] : TrackMap) "light_0" = none ∧
    classify_light_type [] "light_0" = "unknown" :=
  ⟨rfl, claim_C10_unknown_id [] "light_0" rfl⟩

/-- Claim C4, counterexample: on a frame whose color conversion
fails, `detect_lights` does not return an empty detection list — the
`cv2.error` raised by the conversion propagates, because the function
body has no exception handler. -/
theorem claim_C4_counterexample :
    detect_lights bgr2hsv nilPost badFrame =
      Except.error ⟨"Invalid number of channels in input image"⟩ ∧
    detect_lights bgr2hsv nilPost badFrame ≠ Except.ok [] := by
  constructor
  · rfl
  · intro h
    exact Except.noConfusion h

/-- Claim C4, amended: a frame that fails color conversion makes
`detect_lights` propagate the conversion exception unchanged (so no
detection list, empty or not, is produced; the enclosing pipeline
call aborts with that exception). -/
theorem claim_C4_amended (cvtColor : PyFrame → Except CvError HSVImage)
    (postProcess : HSVImage → PyFrame → List Region) (frame : PyFrame)
    (e : CvError) (h : cvtColor frame = Except.error e) :
    detect_lights cvtColor postProcess frame = Except.error e := by
  simp [detect_lights, h]

/-- Witness for the amended C4 at the single-channel frame. -/
theorem claim_C4_witness :
    detect_lights bgr2hsv nilPost badFrame =
      Except.error ⟨"Invalid number of channels in input image"⟩ :=
  claim_C4_amended bgr2hsv nilPost badFrame _ rfl

/-- The two transcriptions of the merged-run loop agree. -/
theorem modelPeriodsLoop_eq (l : List Bool) :
    ∀ cur dur, modelPeriodsLoopInfer l cur dur = modelPeriodsLoopTrain l cur dur := by
  induction l with
  | nil => intro cur dur; rfl
  | cons b t ih =>
    intro cur dur
    by_cases h : b = cur
    · simp [modelPeriodsLoopInfer, modelPeriodsLoopTrain, h, ih]
    · simp [modelPeriodsLoopInfer, modelPeriodsLoopTrain, h, ih]

/-- The two transcriptions of the merged-period list agree. -/
theorem modelPeriods_eq : modelPeriodsInfer = modelPeriodsTrain := by
  funext l
  cases l with
  | nil => rfl
  | cons b t => exact modelPeriodsLoop_eq t b 1

/-- Claim C5: for every history of length at least 10, the feature
vector of the online path (`classify_with_model`) equals, entry for
entry, the feature vector of the offline path (`extract_features`);
the three square-root entries are determined by their (equal)
radicands. -/
theorem claim_C5_feature_paths_agree (history : List Obs)
    (_hlen : 10 ≤ history.length) :
    featuresInfer history = featuresTrain history := by
  unfold featuresInfer featuresTrain
  rw [modelPeriods_eq]

/-- Witness for C5 at a concrete 10-observation history. -/
theorem claim_C5_witness :
    10 ≤ steadyHist.length ∧ featuresInfer steadyHist = featuresTrain steadyHist :=
  ⟨by decide, claim_C5_feature_paths_agree steadyHist (by decide)⟩

/-- Processing one region preserves distinctness of the track ids. -/
theorem keys_nodup_processRegion (cap frame : ℕ)
    (st : TrackMap × List (String × Region)) (r : Region)
    (h : (st.1.map Prod.fst).Nodup) :
    (((processRegion cap frame st r).1).map Prod.fst).Nodup := by
  unfold processRegion
  cases hbm : bestMatch st.1 r.cx r.cy with
  | none =>
    simp only [hbm]
    exact keys_nodup_dictSet _ _ (keys_nodup_dictSet _ _ h)
  | some i =>
    simp only [hbm]
    exact keys_nodup_dictSet _ _ h

/-- One `track_lights` call preserves distinctness of the track ids. -/
theorem keys_nodup_track_lights (cap : ℕ) (m : TrackMap)
    (regions : List Region) (frame : ℕ) (h : (m.map Prod.fst).Nodup) :
    (((track_lights cap m regions frame).1).map Prod.fst).Nodup := by
  suffices hstep : ∀ (rs : List Region) (st : TrackMap × List (String × Region)),
      (st.1.map Prod.fst).Nodup →
      (((rs.foldl (processRegion cap frame) st).1).map Prod.fst).Nodup by
    exact ((List.filter_sublist _).map Prod.fst).nodup
      (hstep regions (m, []) h)
  intro rs
  induction rs with
  | nil => intro st hst; exact hst
  | cons r t ih =>
    intro st hst
    exact ih _ (keys_nodup_processRegion cap frame st r hst)

/-- Claim C1, amended: track ids are unique among the live tracks at
every instant (the live set is a well-formed mapping with pairwise
distinct keys after any call sequence).  The stability half of the
original claim fails: the id counter is the current number of live
tracks, so after an eviction a new track can be assigned the id of an
evicted — or even of a currently live — track, replacing the live
track's history (see the counterexample). -/
theorem claim_C1_ids_nodup (cap : ℕ) (calls : List (List Region × ℕ)) :
    ((runTrack cap calls).map Prod.fst).Nodup := by
  suffices h : ∀ (cs : List (List Region × ℕ)) (m : TrackMap),
      (m.map Prod.fst).Nodup →
      (((cs.foldl (fun m c => (track_lights cap m c.1 c.2).1) m)).map Prod.fst).Nodup by
    exact h calls [] List.nodup_nil
  intro cs
  induction cs with
  | nil => intro m hm; exact hm
  | cons c t ih =>
    intro m hm
    exact ih _ (keys_nodup_track_lights cap m c.1 c.2 hm)

/-- Witness for the amended C1 after one call. -/
theorem claim_C1_witness :
    ((runTrack 30 [([regA], 1)]).map Prod.fst).Nodup :=
  claim_C1_ids_nodup 30 [([regA], 1)]

/-- Claim C1, counterexample: after frame 1 shows two far-apart
lights and frames 2-12 show only the second, the first track is
evicted at frame 12 and the single live track is `"light_1"` with 12
observations (last one at frame 12, so it would survive through frame
22).  Frame 13 shows one fresh region outside every gate; the new
track it spawns is assigned the id `"light_1"` — the id of the
currently live track — whose 12-observation history is replaced by
the single new observation of frame 13.  So an id is reused and a new
track takes a live track's id, contradicting the claim. -/
theorem claim_C1_counterexample :
    (runTrack 30 callsThrough12).map Prod.fst = ["light_1"] ∧
    (dictGet (runTrack 30 callsThrough12) "light_1").map
      (fun h => h.map (fun o => o.frame)) =
      some [1, 2, 3, 4, 5, 6, 7, 8, 9, 10, 11, 12] ∧
    (runTrack 30 callsThrough13).map Prod.fst = ["light_1"] ∧
    (dictGet (runTrack 30 callsThrough13) "light_1").map
      (fun h => h.map (fun o => o.frame)) = some [13] := by
  decide

/-- Claim C2, counterexample: with one track at the origin after
frame 1, frame 2 emits two regions 10 pixels apart, both inside the
50-pixel gate of that track; both are matched to it, so the track
receives two new observations in a single `track_lights` call (its
history then holds the frames `[1, 2, 2]`). -/
theorem claim_C2_counterexample :
    (dictGet (track_lights 30 (runTrack 30 [([regA], 1)]) [regA, regD] 2).1
      "light_0").map (fun h => h.map (fun o => o.frame)) =
      some [1, 2, 2] := by
  decide

/-- Claim C2, amended: within a single invocation of `track_lights`,
every DetectedRegion is consumed by exactly one track — processing a
region appends its observation to exactly one track's history and
leaves every other id's history unchanged.  The per-track half of the
original claim fails: a track may receive more than one observation
in a frame when several of the frame's regions fall within its
gating radius (see the counterexample). -/
theorem claim_C2_region_one_track (cap frame : ℕ)
    (st : TrackMap × List (String × Region)) (r : Region) :
    ∃ i h,
      dictGet (processRegion cap frame st r).1 i =
        some (dequeAppend cap h (mkObs r frame)) ∧
      ∀ k, k = i ∨
        dictGet (processRegion cap frame st r).1 k = dictGet st.1 k := by
  unfold processRegion
  cases hbm : bestMatch st.1 r.cx r.cy with
  | none =>
    simp only [hbm]
    refine ⟨"light_" ++ toString st.1.length,
      (dictGet (dictSet st.1 ("light_" ++ toString st.1.length) []) _).getD [],
      dictGet_dictSet_self _ _ _, ?_⟩
    intro k
    by_cases hk : k = "light_" ++ toString st.1.length
    · exact Or.inl hk
    · refine Or.inr ?_
      rw [dictGet_dictSet_other _ _ _ _ hk, dictGet_dictSet_other _ _ _ _ hk]
  | some i =>
    simp only [hbm]
    refine ⟨i, (dictGet st.1 i).getD [], dictGet_dictSet_self _ _ _, ?_⟩
    intro k
    by_cases hk : k = i
    · exact Or.inl hk
    · exact Or.inr (dictGet_dictSet_other _ _ _ _ hk)

/-- Witness for the amended C2 at a concrete region and state. -/
theorem claim_C2_witness :
    ∃ i h,
      dictGet (processRegion 30 1 ([], []) regA).1 i =
        some (dequeAppend 30 h (mkObs regA 1)) ∧
      ∀ k, k = i ∨
        dictGet (processRegion 30 1 ([], []) regA).1 k = dictGet [] k :=
  claim_C2_region_one_track 30 1 ([], []) regA

set_option maxRecDepth 100000 in
/-- Claim C3, counterexample: a track whose capacity-30 history has
been fed 3 full alternating 10-frames-on / 10-frames-off cycles (60
observations, on-intensity 200 and off-intensity 100 against the
default 180 threshold) is not classified as a hazard light: the
window keeps only the last 30 observations — runs of 10 off, 10 on,
10 off — so there are only 2 transitions, below the `> 3` bound. -/
theorem claim_C3_counterexample :
    classify_light_type cycleState "light_0" ≠ "hazard_light" := by
  have h : classify_light_type cycleState "light_0" = "running_light" := by
    with_unfolding_all rfl
  rw [h]
  decide

set_option maxRecDepth 100000 in
/-- Claim C3, amended: the track fed 3 alternating 10-on/10-off
cycles (60 observations, capacity 30, threshold 180) is classified by
`classify_light_type` as a running light. -/
theorem claim_C3_running :
    classify_light_type cycleState "light_0" = "running_light" := by
  with_unfolding_all rfl

/-- The imperative transition count equals the spec's count of
adjacent flips, with the previous state carried explicitly. -/
theorem pyTransitionsAux_eq (l : List Bool) :
    ∀ prev, pyTransitionsAux prev l =
      ((prev :: l).zip l).countP (fun p => ¬ (p.1 = p.2)) := by
  induction l with
  | nil => intro prev; simp [pyTransitionsAux]
  | cons b t ih =>
    intro prev
    simp only [pyTransitionsAux, List.zip_cons_cons, List.countP_cons, ih b]
    by_cases hb : b = prev
    · subst hb; simp
    · have hpb : ¬ (prev = b) := fun h => hb h.symm
      simp only [if_neg hb, decide_eq_true_eq, hpb, not_false_iff, if_pos]
      omega

/-- The transition count of the source equals that of the spec. -/
theorem pyTransitions_eq (l : List Bool) :
    pyTransitions l = transitionsSpec l := by
  cases l with
  | nil => rfl
  | cons b t =>
    simp only [pyTransitions, transitionsSpec, List.tail_cons]
    exact pyTransitionsAux_eq t b

/-- Consing an element onto a sequence prepends (or merges) a run of
length one. -/
theorem runs_cons (b : Bool) (l : List Bool) :
    runs (b :: l) = mergeRun b 1 (runs l) := by
  cases h : runs l with
  | nil => simp [runs, mergeRun, h]
  | cons p tl => cases p with | mk c n => simp [runs, mergeRun, h]

/-- Merging two pending runs of the same value adds their lengths. -/
theorem mergeRun_mergeRun (c : Bool) (d e : ℕ) (R : List (Bool × ℕ)) :
    mergeRun c d (mergeRun c e R) = mergeRun c (e + d) R := by
  cases R with
  | nil => simp [mergeRun]
  | cons p tl =>
    cases p with
    | mk b n =>
      by_cases hb : c = b
      · simp [mergeRun, hb, Nat.add_assoc]
      · simp [mergeRun, hb]

/-- A merged run list starts with a run of the pending value. -/
theorem mergeRun_head (c : Bool) (d : ℕ) (R : List (Bool × ℕ)) :
    ∃ n tl, mergeRun c d R = (c, n) :: tl := by
  cases R with
  | nil => exact ⟨d, [], rfl⟩
  | cons p tl =>
    cases p with
    | mk b n =>
      by_cases hb : c = b
      · exact ⟨n + d, tl, by simp [mergeRun, hb]⟩
      · exact ⟨d, (b, n) :: tl, by simp [mergeRun, hb]⟩

/-- Splitting a run list with an explicit head run files the head's
length under the on- or off-list according to its value. -/
theorem splitRuns_cons (c : Bool) (d : ℕ) (R : List (Bool × ℕ)) :
    splitRuns ((c, d) :: R) =
      if c then (d :: (splitRuns R).1, (splitRuns R).2)
      else ((splitRuns R).1, d :: (splitRuns R).2) := by
  cases c <;> simp [splitRuns]

/-- The imperative run-splitting loop computes the split run-length
encoding of the sequence with the pending run prepended. -/
theorem runsLoop_eq (l : List Bool) :
    ∀ c d, runsLoop l c d = splitRuns (mergeRun c d (runs l)) := by
  induction l with
  | nil =>
    intro c d
    cases c <;> simp [runsLoop, runs, mergeRun, splitRuns]
  | cons b t ih =>
    intro c d
    by_cases hb : b = c
    · subst hb
      rw [runs_cons, mergeRun_mergeRun, Nat.add_comm 1 d, ← ih b (d + 1)]
      simp [runsLoop]
    · have hcb : ¬ (c = b) := fun h => hb h.symm
      obtain ⟨n, tl, hmr⟩ := mergeRun_head b 1 (runs t)
      simp only [runsLoop, if_neg hb]
      rw [ih, runs_cons, hmr]
      rw [show mergeRun c d ((b, n) :: tl) = (c, d) :: (b, n) :: tl from by
        simp [mergeRun, hcb]]
      rw [splitRuns_cons c d ((b, n) :: tl)]

/-- The source's `on_periods`/`off_periods` pair is the split
run-length encoding of the spec. -/
theorem periodsOf_spec (l : List Bool) : periodsOf l = splitRuns (runs l) := by
  cases l with
  | nil => rfl
  | cons b t =>
    simp only [periodsOf]
    rw [runsLoop_eq, ← runs_cons]

set_option maxRecDepth 10000 in
/-- Claim C6: `classify_light_type` implements exactly the rule of
spec section 4.3 on the track's on/off history: below 10 samples
Unknown; zero transitions RunningLight; more than 3 transitions with
both average run lengths strictly inside (5, 30) HazardLight;
otherwise a positive transition count with an average run length
below 5 HazardLight; all remaining cases RunningLight. -/
theorem claim_C6_spec_rule (m : TrackMap) (lightId : String)
    (history : List Obs) (h : dictGet m lightId = some history) :
    classify_light_type m lightId = specRuleClassify history := by
  unfold classify_light_type
  rw [h]
  simp only [classifyHistory, specRuleClassify]
  rw [pyTransitions_eq, periodsOf_spec]

set_option maxRecDepth 100000 in
/-- Witness for C6 at the alternating-cycle state. -/
theorem claim_C6_witness :
    dictGet cycleState "light_0" = some cycleHist ∧
    classify_light_type cycleState "light_0" = specRuleClassify cycleHist :=
  ⟨by simp [cycleState, dictGet], claim_C6_spec_rule cycleState "light_0" cycleHist
    (by simp [cycleState, dictGet])⟩

/-- A positive transition count forces both an on and an off state in
the sequence (with the carried previous state included). -/
theorem trans_mem (l : List Bool) :
    ∀ prev, 1 ≤ pyTransitionsAux prev l →
      true ∈ prev :: l ∧ false ∈ prev :: l := by
  induction l with
  | nil => intro prev h; simp [pyTransitionsAux] at h
  | cons b t ih =>
    intro prev h
    by_cases hb : b = prev
    · subst hb
      have hm := ih b (by simpa [pyTransitionsAux] using h)
      exact ⟨List.mem_cons_of_mem _ hm.1, List.mem_cons_of_mem _ hm.2⟩
    · cases prev <;> cases b <;> simp_all

/-- Merging a pending run preserves (and adds) the values appearing
in a run list. -/
theorem mem_mergeRun_fst (c : Bool) (d : ℕ) (R : List (Bool × ℕ)) (x : Bool)
    (h : x = c ∨ x ∈ R.map Prod.fst) :
    x ∈ (mergeRun c d R).map Prod.fst := by
  cases R with
  | nil =>
    rcases h with h | h
    · simp [mergeRun, h]
    · simp at h
  | cons p tl =>
    cases p with
    | mk b n =>
      by_cases hb : c = b
      · subst hb
        rw [show mergeRun c d ((c, n) :: tl) = (c, n + d) :: tl from by
          simp [mergeRun]]
        simp only [List.map_cons, List.mem_cons]
        simp only [List.map_cons, List.mem_cons] at h
        tauto
      · rw [show mergeRun c d ((b, n) :: tl) = (c, d) :: (b, n) :: tl from by
          simp [mergeRun, hb]]
        simp only [List.map_cons, List.mem_cons]
        simp only [List.map_cons, List.mem_cons] at h
        tauto

/-- Every value occurring in a sequence occurs as the value of one of
its maximal runs. -/
theorem mem_runs_fst (l : List Bool) (x : Bool) (h : x ∈ l) :
    x ∈ (runs l).map Prod.fst := by
  induction l with
  | nil => simp at h
  | cons b t ih =>
    rw [runs_cons]
    rcases List.mem_cons.mp h with h | h
    · exact mem_mergeRun_fst b 1 (runs t) x (Or.inl h)
    · exact mem_mergeRun_fst b 1 (runs t) x (Or.inr (ih h))

/-- A run list containing an on-run splits to a nonempty on-list. -/
theorem splitRuns_on_ne_nil (R : List (Bool × ℕ))
    (h : true ∈ R.map Prod.fst) : (splitRuns R).1 ≠ [] := by
  obtain ⟨p, hp, hfst⟩ := List.mem_map.mp h
  have hmem : p ∈ R.filter (fun q => q.1) :=
    List.mem_filter.mpr ⟨hp, by simp [hfst]⟩
  simp only [splitRuns, ne_eq, List.map_eq_nil_iff]
  intro hnil
  rw [hnil] at hmem
  simp at hmem

/-- A run list containing an off-run splits to a nonempty off-list. -/
theorem splitRuns_off_ne_nil (R : List (Bool × ℕ))
    (h : false ∈ R.map Prod.fst) : (splitRuns R).2 ≠ [] := by
  obtain ⟨p, hp, hfst⟩ := List.mem_map.mp h
  have hmem : p ∈ R.filter (fun q => !q.1) :=
    List.mem_filter.mpr ⟨hp, by simp [hfst]⟩
  simp only [splitRuns, ne_eq, List.map_eq_nil_iff]
  intro hnil
  rw [hnil] at hmem
  simp at hmem

/-- Claim C9: the average of an empty run list is the +infinity
value, whose comparisons make both hazard tests false rather than
faulting; and once the transition count is at least 1 — the only way
the averaging step is reached — both run lists are nonempty, so both
averages are finite and the +infinity branch is unreachable there. -/
theorem claim_C9_run_averages :
    (avgInf [] = none ∧ ∀ b : ℚ, infLtQ none b = false ∧ qLtInf b none = true) ∧
    ∀ l : List Bool, 1 ≤ pyTransitions l →
      (periodsOf l).1 ≠ [] ∧ (periodsOf l).2 ≠ [] ∧
      avgInf (periodsOf l).1 ≠ none ∧ avgInf (periodsOf l).2 ≠ none := by
  refine ⟨⟨rfl, fun b => ⟨rfl, rfl⟩⟩, ?_⟩
  intro l hl
  cases l with
  | nil => simp [pyTransitions] at hl
  | cons b t =>
    have hm := trans_mem t b (by simpa [pyTransitions] using hl)
    have h1 : (periodsOf (b :: t)).1 ≠ [] := by
      rw [periodsOf_spec]
      exact splitRuns_on_ne_nil _ (mem_runs_fst _ _ hm.1)
    have h2 : (periodsOf (b :: t)).2 ≠ [] := by
      rw [periodsOf_spec]
      exact splitRuns_off_ne_nil _ (mem_runs_fst _ _ hm.2)
    refine ⟨h1, h2, ?_, ?_⟩
    · simp [avgInf, h1]
    · simp [avgInf, h2]

/-- Processing one region preserves the bound on history lengths. -/
theorem length_le_processRegion (cap frame : ℕ)
    (st : TrackMap × List (String × Region)) (r : Region)
    (h : ∀ e ∈ st.1, e.2.length ≤ cap) :
    ∀ e ∈ (processRegion cap frame st r).1, e.2.length ≤ cap := by
  intro e he
  cases hbm : bestMatch st.1 r.cx r.cy with
  | some i =>
    simp only [processRegion, hbm] at he
    rcases mem_dictSet_weak he with he' | he'
    · rw [he']
      exact dequeAppend_length_le cap _ _
    · exact h e he'
  | none =>
    simp only [processRegion, hbm] at he
    rcases mem_dictSet_weak he with he' | he'
    · rw [he']
      exact dequeAppend_length_le cap _ _
    · rcases mem_dictSet_weak he' with he'' | he''
      · rw [he'']
        simp
      · exact h e he''

/-- One `track_lights` call preserves the bound on history lengths. -/
theorem length_le_track_lights (cap : ℕ) (m : TrackMap)
    (regions : List Region) (frame : ℕ) (h : ∀ e ∈ m, e.2.length ≤ cap) :
    ∀ e ∈ (track_lights cap m regions frame).1, e.2.length ≤ cap := by
  suffices hgen : ∀ (rs : List Region) (st : TrackMap × List (String × Region)),
      (∀ e ∈ st.1, e.2.length ≤ cap) →
      ∀ e ∈ (rs.foldl (processRegion cap frame) st).1, e.2.length ≤ cap by
    intro e he
    simp only [track_lights] at he
    exact hgen regions (m, []) h e (List.mem_filter.mp he).1
  intro rs
  induction rs with
  | nil => intro st hst; exact hst
  | cons r t ih =>
    intro st hst
    exact ih _ (length_le_processRegion cap frame st r hst)

/-- Claim C8: after every sequence of frames processed from the
initial state with the default capacity 30, every live track's
history has at most 30 observations; and appending to a full history
drops the oldest observation (FIFO eviction). -/
theorem claim_C8_bounded_history :
    (∀ (calls : List (List Region × ℕ)), ∀ e ∈ runTrack 30 calls,
      e.2.length ≤ 30) ∧
    ∀ (h : List Obs) (x : Obs), h.length = 30 →
      dequeAppend 30 h x = h.tail ++ [x] := by
  constructor
  · intro calls
    suffices hgen : ∀ (cs : List (List Region × ℕ)) (m : TrackMap),
        (∀ e ∈ m, e.2.length ≤ 30) →
        ∀ e ∈ cs.foldl (fun m c => (track_lights 30 m c.1 c.2).1) m,
          e.2.length ≤ 30 by
      exact hgen calls [] (by simp)
    intro cs
    induction cs with
    | nil => intro m hm; exact hm
    | cons c t ih =>
      intro m hm
      exact ih _ (length_le_track_lights 30 m c.1 c.2 hm)
  · intro h x hlen
    unfold dequeAppend
    rw [if_neg (by omega), hlen]
    norm_num
    cases h with
    | nil => simp at hlen
    | cons a t => rfl

/-- Witness for C8: the length bound after one concrete call, and the
FIFO shift on a concrete full history. -/
theorem claim_C8_witness :
    [mkObs regA 1].length ≤ 30 ∧
    dequeAppend 30 (List.replicate 30 (mkObs regA 1)) (mkObs regB 2) =
      (List.replicate 30 (mkObs regA 1)).tail ++ [mkObs regB 2] :=
  ⟨claim_C8_bounded_history.1 [([regA], 1)] ("light_0", [mkObs regA 1])
      (by decide),
    claim_C8_bounded_history.2 (List.replicate 30 (mkObs regA 1)) (mkObs regB 2)
      (by simp)⟩

/-- Processing one region preserves the per-frame invariant: all
histories are nonempty, and every track touched this frame (its id a
key of `current_light_states`) ends with an observation of the
current frame. -/
theorem processRegion_post (cap frame : ℕ) (hcap : 1 ≤ cap)
    (st : TrackMap × List (String × Region)) (r : Region)
    (hnd : (st.1.map Prod.fst).Nodup)
    (hinv : ∀ e ∈ st.1, e.2 ≠ [] ∧ (dictHas st.2 e.1 = true →
      ∃ o, e.2.getLast? = some o ∧ o.frame = frame)) :
    ∀ e ∈ (processRegion cap frame st r).1, e.2 ≠ [] ∧
      (dictHas (processRegion cap frame st r).2 e.1 = true →
        ∃ o, e.2.getLast? = some o ∧ o.frame = frame) := by
  intro e he
  cases hbm : bestMatch st.1 r.cx r.cy with
  | some i =>
    simp only [processRegion, hbm] at he ⊢
    rcases mem_dictSet_nodup hnd he with he' | ⟨hmem, hne⟩
    · rw [he']
      exact ⟨dequeAppend_ne_nil cap hcap _ _,
        fun _ => ⟨mkObs r frame, dequeAppend_getLast cap hcap _ _, rfl⟩⟩
    · refine ⟨(hinv e hmem).1, ?_⟩
      rw [dictHas_dictSet_other st.2 i e.1 r hne]
      exact (hinv e hmem).2
  | none =>
    simp only [processRegion, hbm] at he ⊢
    rcases mem_dictSet_nodup (keys_nodup_dictSet _ [] hnd) he
      with he' | ⟨hmem, hne⟩
    · rw [he']
      exact ⟨dequeAppend_ne_nil cap hcap _ _,
        fun _ => ⟨mkObs r frame, dequeAppend_getLast cap hcap _ _, rfl⟩⟩
    · rcases mem_dictSet_nodup hnd hmem with he'' | ⟨hmem2, _⟩
      · exact absurd (by rw [he'']) hne
      · refine ⟨(hinv e hmem2).1, ?_⟩
        rw [dictHas_dictSet_other st.2 _ e.1 r hne]
        exact (hinv e hmem2).2

/-- The per-frame invariant holds after the whole matching loop. -/
theorem foldRegions_post (cap frame : ℕ) (hcap : 1 ≤ cap) :
    ∀ (rs : List Region) (st : TrackMap × List (String × Region)),
      (st.1.map Prod.fst).Nodup →
      (∀ e ∈ st.1, e.2 ≠ [] ∧ (dictHas st.2 e.1 = true →
        ∃ o, e.2.getLast? = some o ∧ o.frame = frame)) →
      ∀ e ∈ (rs.foldl (processRegion cap frame) st).1, e.2 ≠ [] ∧
        (dictHas (rs.foldl (processRegion cap frame) st).2 e.1 = true →
          ∃ o, e.2.getLast? = some o ∧ o.frame = frame) := by
  intro rs
  induction rs with
  | nil => intro st hnd hinv; exact hinv
  | cons r t ih =>
    intro st hnd hinv
    exact ih _ (keys_nodup_processRegion cap frame st r hnd)
      (processRegion_post cap frame hcap st r hnd hinv)

/-- After a `track_lights` call at frame index `f`, every surviving
track has a nonempty history whose last observation is at most 10
frames old: matched and new tracks end at frame `f`, and unmatched
tracks survived the eviction test `f - lastSeenFrame > 10`. -/
theorem track_lights_post (cap : ℕ) (hcap : 1 ≤ cap) (m : TrackMap)
    (regions : List Region) (f : ℕ) (hnd : (m.map Prod.fst).Nodup)
    (hne : ∀ e ∈ m, e.2 ≠ []) :
    ∀ e ∈ (track_lights cap m regions f).1, e.2 ≠ [] ∧
      ∀ o, e.2.getLast? = some o → (f : ℤ) - (o.frame : ℤ) ≤ 10 := by
  intro e he
  simp only [track_lights] at he
  have hf := List.mem_filter.mp he
  have hpost := foldRegions_post cap f hcap regions (m, []) hnd
    (fun e' he' => ⟨hne e' he', by intro hhas; simp [dictHas] at hhas⟩)
    e hf.1
  refine ⟨hpost.1, ?_⟩
  intro o ho
  by_cases hhas :
      dictHas (List.foldl (processRegion cap f) (m, []) regions).2 e.1 = true
  · obtain ⟨o', ho', hfr⟩ := hpost.2 hhas
    rw [ho] at ho'
    cases ho'
    rw [hfr]
    omega
  · have hpred := hf.2
    rw [Bool.not_eq_true] at hhas
    simp only [hhas, Bool.false_eq_true, if_false, ho] at hpred
    simp only [Bool.not_eq_eq_eq_not, Bool.not_true, decide_eq_false_iff_not,
      not_lt] at hpred
    omega

/-- After any call sequence from the initial state with positive
capacity, the live set has distinct ids and nonempty histories. -/
theorem runTrack_nodup_nonempty (cap : ℕ) (hcap : 1 ≤ cap)
    (calls : List (List Region × ℕ)) :
    ((runTrack cap calls).map Prod.fst).Nodup ∧
    ∀ e ∈ runTrack cap calls, e.2 ≠ [] := by
  suffices hgen : ∀ (cs : List (List Region × ℕ)) (m : TrackMap),
      (m.map Prod.fst).Nodup → (∀ e ∈ m, e.2 ≠ []) →
      ((cs.foldl (fun m c => (track_lights cap m c.1 c.2).1) m).map
        Prod.fst).Nodup ∧
      ∀ e ∈ cs.foldl (fun m c => (track_lights cap m c.1 c.2).1) m,
        e.2 ≠ [] by
    exact hgen calls [] (by simp) (by simp)
  intro cs
  induction cs with
  | nil => intro m hnd hne; exact ⟨hnd, hne⟩
  | cons c t ih =>
    intro m hnd hne
    exact ih _ (keys_nodup_track_lights cap m c.1 c.2 hnd)
      (fun e he => (track_lights_post cap hcap m c.1 c.2 hnd hne e he).1)

/-- Claim C7: for every call sequence (with the default configuration,
capacity 30), after the call with frame index `f` no live track's last
observation is more than 10 frames old: `f - lastSeenFrame ≤ 10` for
every live track.  In particular a track never given an observation
for 11 consecutive frames is absent after the 11th subsequent call,
since its last observation would then be 11 frames old. -/
theorem claim_C7_eviction (pre : List (List Region × ℕ))
    (regions : List Region) (f : ℕ) :
    ∀ e ∈ runTrack 30 (pre ++ [(regions, f)]), e.2 ≠ [] ∧
      ∀ o, e.2.getLast? = some o → (f : ℤ) - (o.frame : ℤ) ≤ 10 := by
  intro e he
  rw [show runTrack 30 (pre ++ [(regions, f)]) =
      (track_lights 30 (runTrack 30 pre) regions f).1 from by
    unfold runTrack
    rw [List.foldl_append]
    rfl] at he
  have hinv := runTrack_nodup_nonempty 30 (by omega) pre
  exact track_lights_post 30 (by omega) (runTrack 30 pre) regions f
    hinv.1 hinv.2 e he

/-- Witness for C7 after one concrete call. -/
theorem claim_C7_witness :
    [mkObs regA 1] ≠ [] ∧ (1 : ℤ) - ((mkObs regA 1).frame : ℤ) ≤ 10 := by
  have h := claim_C7_eviction [] [regA] 1 ("light_0", [mkObs regA 1])
    (by decide)
  exact ⟨h.1, h.2 (mkObs regA 1) rfl⟩

/-- Witness for C9 at a two-state sequence with one transition. -/
theorem claim_C9_witness :
    1 ≤ pyTransitions [true, false] ∧
    ((periodsOf [true, false]).1 ≠ [] ∧ (periodsOf [true, false]).2 ≠ [] ∧
      avgInf (periodsOf [true, false]).1 ≠ none ∧
      avgInf (periodsOf [true, false]).2 ≠ none) :=
  ⟨by decide, claim_C9_run_averages.2 [true, false] (by decide)⟩

end HazardLight
